import Mathlib

/-!
Verification of the ghq command layer (`commands.go`): the sync
orchestration (`doGet` / `getRemoteRepository`), the listing and
disambiguation logic (`doList`), single-target resolution (`doWhich` /
`doLook`), and the batch import loops (`doImportStarred` /
`doImportPocket`).

The command layer's collaborators (URL parsing, the repository walk, the
`LocalRepository` accessors, the VCS drivers) live outside the file under
verification; they are modelled here from the specification, each marked
`Modelled from the spec:` in its doc comment.  Effects (filesystem
existence checks, driver invocations, printing) are made explicit:
existence checks become boolean parameters and driver invocations become
constructors of an outcome type.
-/

namespace Ghq

/-- Modelled from the spec: the VcsKind enumeration over the three
recognized backends; the `unknown` sentinel is rendered as `Option.none`
at use sites, matching the Go code's nil backend pointer. -/
inductive VcsKind where
  | git
  | mercurial
  | subversion
deriving DecidableEq

/-- Modelled from the spec: a discovered local repository record.  The
spec's invariants `fullPath = root + relPath` and `pathParts` being the
separator decomposition of `relPath` make `root` and `pathParts` the two
independent fields; `relPath` and `fullPath` are derived below. -/
structure LocalRepository where
  root : String
  pathParts : List String
deriving DecidableEq

/-- Modelled from the spec: `relPath` is the join of `pathParts` with the
path separator. -/
def LocalRepository.relPath (r : LocalRepository) : String :=
  String.intercalate "/" r.pathParts

/-- Modelled from the spec: the invariant `fullPath = root + relPath`. -/
def LocalRepository.fullPath (r : LocalRepository) : String :=
  r.root ++ "/" ++ r.relPath

/-- Modelled from the spec: the subpaths of a repository are the joins of
the suffixes of `pathParts`, ordered shortest first, lengths
`1..len(pathParts)`. -/
def LocalRepository.subpaths (r : LocalRepository) : List String :=
  (List.range r.pathParts.length).map fun i =>
    String.intercalate "/" (r.pathParts.drop (r.pathParts.length - (i + 1)))

/-- Modelled from the spec: the repository's path with the leading host
segment removed — the spec's Path Model decomposes `relPath` as
`host/owner/name`, and the non-host path joins `pathParts` without its
head (the `NonHostPath` accessor of the Go code, absent from the file
under verification). -/
def LocalRepository.nonHostPath (r : LocalRepository) : String :=
  String.intercalate "/" r.pathParts.tail

/-- Modelled from the spec: a repository is under the primary root when
its root is the first configured root, which is passed explicitly. -/
def LocalRepository.isUnderPrimaryRoot (r : LocalRepository) (primaryRoot : String) : Bool :=
  r.root == primaryRoot

/-- Modelled from the spec: exact matching holds when `relPath` equals
the query or ends with `/query` at a part boundary, i.e. when the query
equals one of the repository's subpaths (the `Matches` accessor of the Go
code, absent from the file under verification). -/
def LocalRepository.matches (r : LocalRepository) (query : String) : Bool :=
  r.subpaths.contains query

/-- Character-list prefix test, used to express Go's `strings.Contains`. -/
def prefixAt : List Char → List Char → Bool
  | [], _ => true
  | _ :: _, [] => false
  | c :: cs, d :: ds => c == d && prefixAt cs ds

/-- Character-list substring test: `sub` occurs contiguously in the
second argument. -/
def containsSub (sub : List Char) : List Char → Bool
  | [] => prefixAt sub []
  | d :: ds => prefixAt sub (d :: ds) || containsSub sub ds

/-- Go's `strings.Contains s substr`: `substr` occurs in `s` as a
contiguous substring. -/
def strContains (s substr : String) : Bool :=
  containsSub substr.data s.data

/-- Modelled from the spec: the remote identity as the sync orchestration
consumes it — its URL, the VCS Classifier's answer (`none` standing for
the `unknown` sentinel / nil backend), and the resolver's validity
verdict.  The Go `RemoteRepository` interface and its constructors are
outside the file under verification. -/
structure RemoteRepository where
  url : String
  vcs : Option VcsKind
  isValid : Bool
deriving DecidableEq

/-- Outcome of one sync, recording exactly which driver invocation (or
abort, or no-op) the control flow reaches. -/
inductive SyncOutcome where
  | aborted (msg : String)
  | cloned (remoteURL fullPath : String) (shallow : Bool) (vcs : VcsKind)
  | updated (fullPath : String) (localVcs : Option VcsKind)
  | alreadyExists (fullPath : String)
deriving DecidableEq

/-- `getRemoteRepository` from `commands.go`: clone when the target path
is new (aborting when the remote's VCS is nil), update when it exists and
update is requested, report existence otherwise.  The collaborator calls
are explicit parameters: `localFullPath` is `LocalRepositoryFromURL(...)
.FullPath` (the spec's pure path join), `localVcs` is `local.VCS()` (the
local clone's own metadata), and `pathExists` is the `os.Stat` result. -/
def getRemoteRepository (remote : RemoteRepository) (localFullPath : String)
    (localVcs : Option VcsKind) (pathExists doUpdate isShallow : Bool) : SyncOutcome :=
  let newPath := !pathExists
  if newPath then
    match remote.vcs with
    | none => SyncOutcome.aborted "Could not find version control system"
    | some vcs => SyncOutcome.cloned remote.url localFullPath isShallow vcs
  else
    if doUpdate then SyncOutcome.updated localFullPath localVcs
    else SyncOutcome.alreadyExists localFullPath

/-- `doGet` from `commands.go`, from the validity check on: an invalid
remote is rejected before `getRemoteRepository` is reached.  (URL parsing
and the optional SSH rewrite precede this check and are collaborator
calls outside the file under verification.) -/
def doGet (remote : RemoteRepository) (localFullPath : String)
    (localVcs : Option VcsKind) (pathExists doUpdate isShallow : Bool) : SyncOutcome :=
  if remote.isValid = false then SyncOutcome.aborted "Not a valid repository"
  else getRemoteRepository remote localFullPath localVcs pathExists doUpdate isShallow

/-- C2: `sync` is a three-way case split on the existence of the target
path: absent targets are cloned with the remote's driver, existing
targets are updated when requested, and otherwise the operation is a
no-op reported as already existing, invoking neither clone nor update. -/
theorem sync_three_way_case_split (remote : RemoteRepository) (lp : String)
    (lv : Option VcsKind) (pe du sh : Bool) :
    (pe = false → ∀ v, remote.vcs = some v →
      getRemoteRepository remote lp lv pe du sh = SyncOutcome.cloned remote.url lp sh v)
    ∧ (pe = true → du = true →
      getRemoteRepository remote lp lv pe du sh = SyncOutcome.updated lp lv)
    ∧ (pe = true → du = false →
      getRemoteRepository remote lp lv pe du sh = SyncOutcome.alreadyExists lp
      ∧ (∀ u p s v, getRemoteRepository remote lp lv pe du sh ≠ SyncOutcome.cloned u p s v)
      ∧ (∀ p v, getRemoteRepository remote lp lv pe du sh ≠ SyncOutcome.updated p v)) := by
  refine ⟨?_, ?_, ?_⟩
  · intro hpe v hv
    subst hpe
    simp [getRemoteRepository, hv]
  · intro hpe hdu
    subst hpe; subst hdu
    simp [getRemoteRepository]
  · intro hpe hdu
    subst hpe; subst hdu
    refine ⟨by simp [getRemoteRepository], ?_, ?_⟩
    · intro u p s v
      simp [getRemoteRepository]
    · intro p v
      simp [getRemoteRepository]

/-- Witness for C2: the three branches at concrete inputs. -/
theorem sync_three_way_case_split_witness :
    getRemoteRepository ⟨"u", some VcsKind.git, true⟩ "p" none false true false
      = SyncOutcome.cloned "u" "p" false VcsKind.git
    ∧ getRemoteRepository ⟨"u", some VcsKind.git, true⟩ "p" (some VcsKind.git) true true false
      = SyncOutcome.updated "p" (some VcsKind.git)
    ∧ getRemoteRepository ⟨"u", some VcsKind.git, true⟩ "p" (some VcsKind.git) true false false
      = SyncOutcome.alreadyExists "p" :=
  ⟨(sync_three_way_case_split ⟨"u", some VcsKind.git, true⟩ "p" none false true false).1
      rfl VcsKind.git rfl,
   (sync_three_way_case_split ⟨"u", some VcsKind.git, true⟩ "p" (some VcsKind.git) true true
      false).2.1 rfl rfl,
   ((sync_three_way_case_split ⟨"u", some VcsKind.git, true⟩ "p" (some VcsKind.git) true false
      false).2.2 rfl rfl).1⟩

/-- C3 counterexample: a remote whose resolved VCS is nil, with the
target path present and update requested, does not abort — the update is
invoked (with the local clone's driver).  So "IsValid false or VCS nil
always aborts before any clone or update" fails at this input. -/
theorem nil_vcs_reaches_update_cex :
    (⟨"https://example.com/a/b", none, true⟩ : RemoteRepository).vcs = none
    ∧ doGet ⟨"https://example.com/a/b", none, true⟩ "/r1/example.com/a/b"
        (some VcsKind.git) true true false
      = SyncOutcome.updated "/r1/example.com/a/b" (some VcsKind.git) :=
  ⟨rfl, rfl⟩

/-- C3 (amended): a remote with `IsValid` false aborts in `doGet` before
any clone or update; a remote whose resolved VCS is nil aborts before a
clone whenever the target path is absent. -/
theorem invalid_remote_aborts (remote : RemoteRepository) (lp : String)
    (lv : Option VcsKind) (pe du sh : Bool) :
    (remote.isValid = false →
      doGet remote lp lv pe du sh = SyncOutcome.aborted "Not a valid repository"
      ∧ (∀ u p s v, doGet remote lp lv pe du sh ≠ SyncOutcome.cloned u p s v)
      ∧ (∀ p v, doGet remote lp lv pe du sh ≠ SyncOutcome.updated p v))
    ∧ (remote.vcs = none → pe = false →
      getRemoteRepository remote lp lv pe du sh
        = SyncOutcome.aborted "Could not find version control system"
      ∧ (∀ u p s v, getRemoteRepository remote lp lv pe du sh ≠ SyncOutcome.cloned u p s v)
      ∧ (∀ p v, getRemoteRepository remote lp lv pe du sh ≠ SyncOutcome.updated p v)) := by
  constructor
  · intro hval
    refine ⟨by simp [doGet, hval], ?_, ?_⟩
    · intro u p s v
      simp [doGet, hval]
    · intro p v
      simp [doGet, hval]
  · intro hv hpe
    subst hpe
    refine ⟨by simp [getRemoteRepository, hv], ?_, ?_⟩
    · intro u p s v
      simp [getRemoteRepository, hv]
    · intro p v
      simp [getRemoteRepository, hv]

/-- Witness for the amended C3: an invalid remote, and a nil-VCS remote
with absent target, both abort. -/
theorem invalid_remote_aborts_witness :
    doGet ⟨"u", none, false⟩ "p" none true true false
      = SyncOutcome.aborted "Not a valid repository"
    ∧ getRemoteRepository ⟨"u", none, true⟩ "p" none false false false
      = SyncOutcome.aborted "Could not find version control system" :=
  ⟨((invalid_remote_aborts ⟨"u", none, false⟩ "p" none true true false).1 rfl).1,
   ((invalid_remote_aborts ⟨"u", none, true⟩ "p" none false false false).2 rfl rfl).1⟩

/-- C9: when the target path exists and update is requested, the invoked
driver is the one read from the local clone's metadata (`local.VCS()`),
whatever it is — no nil/unknown guard — and the outcome is entirely
independent of the remote's classification. -/
theorem update_branch_uses_local_vcs (remote other : RemoteRepository) (lp : String)
    (lv : Option VcsKind) (du sh sh' : Bool) (hdu : du = true) :
    getRemoteRepository remote lp lv true du sh = SyncOutcome.updated lp lv
    ∧ getRemoteRepository remote lp lv true du sh
      = getRemoteRepository other lp lv true du sh' := by
  subst hdu
  constructor
  · simp [getRemoteRepository]
  · simp [getRemoteRepository]

/-- Witness for C9: with a nil local driver and two remotes classified
differently (mercurial versus unknown), the update branch still yields
the same update invocation. -/
theorem update_branch_uses_local_vcs_witness :
    getRemoteRepository ⟨"u", some VcsKind.mercurial, true⟩ "p" none true true true
      = SyncOutcome.updated "p" none
    ∧ getRemoteRepository ⟨"u", some VcsKind.mercurial, true⟩ "p" none true true true
      = getRemoteRepository ⟨"v", none, false⟩ "p" none true true false :=
  update_branch_uses_local_vcs ⟨"u", some VcsKind.mercurial, true⟩ ⟨"v", none, false⟩
    "p" none true true false rfl

/-- Outcome of `doWhich`: the error log for no match, the printed full
path for one match, or the error listing of every candidate's joined
path-part sequence for several. -/
inductive WhichOutcome where
  | notFound
  | printed (fullPath : String)
  | ambiguous (candidates : List String)
deriving DecidableEq

/-- `doWhich` from `commands.go`: filter the discovered repositories by
exact match and switch on the number found.  The walk itself is a
collaborator; the discovered list is a parameter. -/
def doWhich (name : String) (repos : List LocalRepository) : WhichOutcome :=
  let reposFound := repos.filter fun r => r.matches name
  match reposFound with
  | [] => WhichOutcome.notFound
  | [r] => WhichOutcome.printed r.fullPath
  | _ => WhichOutcome.ambiguous (reposFound.map fun r => String.intercalate "/" r.pathParts)

/-- Outcome of `doLook`: like `doWhich`, but a single match enters a
shell in the repository's directory. -/
inductive LookOutcome where
  | notFound
  | entered (fullPath : String)
  | ambiguous (candidates : List String)
deriving DecidableEq

/-- `doLook` from `commands.go`: same match-count switch as `doWhich`;
the single-match branch changes into the repository directory and
executes a shell there. -/
def doLook (name : String) (repos : List LocalRepository) : LookOutcome :=
  let reposFound := repos.filter fun r => r.matches name
  match reposFound with
  | [] => LookOutcome.notFound
  | [r] => LookOutcome.entered r.fullPath
  | _ => LookOutcome.ambiguous (reposFound.map fun r => String.intercalate "/" r.pathParts)

/-- C7: single-target resolution errors on zero matches, succeeds with
the repository's full path on exactly one, and on several errors with
every candidate's full path-part sequence, selecting none of them. -/
theorem single_target_resolution (name : String) (repos : List LocalRepository) :
    ((repos.filter fun r => r.matches name) = [] →
      doWhich name repos = WhichOutcome.notFound ∧ doLook name repos = LookOutcome.notFound)
    ∧ (∀ r, (repos.filter fun r => r.matches name) = [r] →
      doWhich name repos = WhichOutcome.printed r.fullPath
      ∧ doLook name repos = LookOutcome.entered r.fullPath)
    ∧ (2 ≤ (repos.filter fun r => r.matches name).length →
      doWhich name repos = WhichOutcome.ambiguous
        ((repos.filter fun r => r.matches name).map fun r => String.intercalate "/" r.pathParts)
      ∧ (∀ p, doWhich name repos ≠ WhichOutcome.printed p)
      ∧ doLook name repos = LookOutcome.ambiguous
        ((repos.filter fun r => r.matches name).map fun r => String.intercalate "/" r.pathParts)
      ∧ (∀ p, doLook name repos ≠ LookOutcome.entered p)) := by
  refine ⟨?_, ?_, ?_⟩
  · intro h
    constructor
    · simp [doWhich, h]
    · simp [doLook, h]
  · intro r h
    constructor
    · simp [doWhich, h]
    · simp [doLook, h]
  · intro h
    rcases hl : repos.filter fun r => r.matches name with _ | ⟨a, _ | ⟨b, t⟩⟩
    · rw [hl] at h; simp at h
    · rw [hl] at h; simp at h
    · refine ⟨?_, ?_, ?_, ?_⟩
      · simp [doWhich, hl]
      · intro p
        simp [doWhich, hl]
      · simp [doLook, hl]
      · intro p
        simp [doLook, hl]

/-- Witness for C7: the three branches at concrete repository sets. -/
theorem single_target_resolution_witness :
    doWhich "zzz" [⟨"/r1", ["github.com", "alice", "foo"]⟩] = WhichOutcome.notFound
    ∧ doWhich "foo" [⟨"/r1", ["github.com", "alice", "foo"]⟩]
      = WhichOutcome.printed "/r1/github.com/alice/foo"
    ∧ doWhich "foo" [⟨"/r1", ["github.com", "alice", "foo"]⟩,
        ⟨"/r1", ["github.com", "bob", "foo"]⟩]
      = WhichOutcome.ambiguous ["github.com/alice/foo", "github.com/bob/foo"] :=
  ⟨((single_target_resolution "zzz" [⟨"/r1", ["github.com", "alice", "foo"]⟩]).1
      (by decide)).1,
   ((single_target_resolution "foo" [⟨"/r1", ["github.com", "alice", "foo"]⟩]).2.1
      ⟨"/r1", ["github.com", "alice", "foo"]⟩ (by decide)).1,
   ((single_target_resolution "foo" [⟨"/r1", ["github.com", "alice", "foo"]⟩,
      ⟨"/r1", ["github.com", "bob", "foo"]⟩]).2.2 (by decide)).1⟩

/-- Go's `map[string]int` with its zero default: a total function. -/
def CountMap : Type := String → Nat

/-- `m[k]++` on a Go counting map. -/
def CountMap.incr (m : CountMap) (k : String) : CountMap :=
  fun q => if q = k then m q + 1 else m q

/-- Increment a counting map once for every element of a list, in
order. -/
def CountMap.incrAll (m : CountMap) : List String → CountMap
  | [] => m
  | p :: ps => (m.incr p).incrAll ps

/-- The all-zero counting map, Go's `map[string]int{}`. -/
def zeroCount : CountMap := fun _ => 0

/-- First loop of `doList`'s unique mode: walk the filtered repositories
once, adding each repository's subpaths to `subpathCount` only when its
`relPath` has not been seen (`reposCount` zero), then bump
`reposCount[relPath]`. -/
def subpathCountLoop : List LocalRepository → CountMap × CountMap → CountMap × CountMap
  | [], maps => maps
  | repo :: rest, (subpathCount, reposCount) =>
    subpathCountLoop rest
      (if reposCount repo.relPath = 0 then subpathCount.incrAll repo.subpaths else subpathCount,
       reposCount.incr repo.relPath)

/-- Second loop of `doList`'s unique mode: skip a repository whose
`relPath` is duplicated unless it lies under the primary root, then
print its first subpath whose count is one, if any. -/
def printUniqueLoop (subpathCount reposCount : CountMap) (primaryRoot : String) :
    List LocalRepository → List String
  | [] => []
  | repo :: rest =>
    if reposCount repo.relPath > 1 ∧ repo.isUnderPrimaryRoot primaryRoot = false then
      printUniqueLoop subpathCount reposCount primaryRoot rest
    else
      match repo.subpaths.find? (fun p => subpathCount p == 1) with
      | some p => p :: printUniqueLoop subpathCount reposCount primaryRoot rest
      | none => printUniqueLoop subpathCount reposCount primaryRoot rest

/-- The unique-listing branch of `doList`: both loops, run on the
filtered repositories in discovery order. -/
def uniqueListing (primaryRoot : String) (repos : List LocalRepository) : List String :=
  printUniqueLoop (subpathCountLoop repos (zeroCount, zeroCount)).1
    (subpathCountLoop repos (zeroCount, zeroCount)).2 primaryRoot repos

/-- The filter `doList` builds from its query: everything on an empty
query, exact matching with `-e`, and otherwise Go's `strings.Contains`
on the repository's non-host path. -/
def doListFilter (query : String) (exact : Bool) (r : LocalRepository) : Bool :=
  if query = "" then true
  else if exact then r.matches query
  else strContains r.nonHostPath query

/-- `doList` from `commands.go`: filter the discovered repositories by
the query, then either run the unique-listing branch or print each
repository's full or relative path.  The walk is a collaborator; the
discovered list is a parameter, in discovery order (primary root
first). -/
def doList (primaryRoot query : String) (exact printFullPaths printUniquePaths : Bool)
    (repos : List LocalRepository) : List String :=
  let repos := repos.filter (doListFilter query exact)
  if printUniquePaths then uniqueListing primaryRoot repos
  else repos.map fun r => if printFullPaths then r.fullPath else r.relPath

/-- Concatenation of the subpath lists of a repository list. -/
def subpathsAll : List LocalRepository → List String
  | [] => []
  | r :: rs => r.subpaths ++ subpathsAll rs

/-- The sublist the counting loop actually counts, relative to an
initial `reposCount`: each repository is kept exactly when its `relPath`
count is still zero at its turn. -/
def dedupNew (reposCount : CountMap) : List LocalRepository → List LocalRepository
  | [] => []
  | r :: rs =>
    if reposCount r.relPath = 0 then r :: dedupNew (reposCount.incr r.relPath) rs
    else dedupNew (reposCount.incr r.relPath) rs

/-- The first copy, in discovery order, of each distinct `relPath`. -/
def firstCopies (repos : List LocalRepository) : List LocalRepository :=
  dedupNew zeroCount repos

/-- C4: with two roots and clones of `alice/foo` and `bob/foo` under
`github.com` in each, unique-listing prints `alice/foo` and `bob/foo`
(`foo` collides); with only the first clone present it prints `foo`. -/
theorem unique_listing_scenarios :
    doList "/r1" "" false false true
      [⟨"/r1", ["github.com", "alice", "foo"]⟩, ⟨"/r2", ["github.com", "bob", "foo"]⟩]
      = ["alice/foo", "bob/foo"]
    ∧ doList "/r1" "" false false true [⟨"/r1", ["github.com", "alice", "foo"]⟩]
      = ["foo"] := by
  constructor
  · rfl
  · rfl

theorem incrAll_apply (ps : List String) (m : CountMap) (q : String) :
    CountMap.incrAll m ps q = m q + ps.count q := by
  induction ps generalizing m with
  | nil => simp [CountMap.incrAll]
  | cons p ps ih =>
    rw [CountMap.incrAll, ih]
    by_cases h : q = p
    · subst h
      simp [CountMap.incr, List.count_cons]
      omega
    · simp [CountMap.incr, h, List.count_cons, Ne.symm h]

theorem loop_fst (repos : List LocalRepository) : ∀ (sc rc : CountMap) (p : String),
    (subpathCountLoop repos (sc, rc)).1 p = sc p + (subpathsAll (dedupNew rc repos)).count p := by
  induction repos with
  | nil => intro sc rc p; simp [subpathCountLoop, dedupNew, subpathsAll]
  | cons r rest ih =>
    intro sc rc p
    by_cases h : rc r.relPath = 0
    · rw [subpathCountLoop, if_pos h, ih, dedupNew, if_pos h, subpathsAll,
        incrAll_apply, List.count_append]
      omega
    · rw [subpathCountLoop, if_neg h, ih, dedupNew, if_neg h]

theorem loop_snd (repos : List LocalRepository) : ∀ (sc rc : CountMap) (q : String),
    (subpathCountLoop repos (sc, rc)).2 q
      = rc q + (repos.map fun r => r.relPath).count q := by
  induction repos with
  | nil => intro sc rc q; simp [subpathCountLoop]
  | cons r rest ih =>
    intro sc rc q
    rw [subpathCountLoop, ih]
    by_cases h : q = r.relPath
    · subst h
      simp [CountMap.incr, List.count_cons]
      omega
    · simp [CountMap.incr, h, List.count_cons, Ne.symm h]

theorem dedupNew_of_nodup :
    ∀ (repos : List LocalRepository) (rc : CountMap),
    ((repos.map fun r => r.relPath).Nodup) → (∀ r ∈ repos, rc r.relPath = 0) →
    dedupNew rc repos = repos := by
  intro repos
  induction repos with
  | nil => intro rc _ _; rfl
  | cons r rest ih =>
    intro rc hnd hz
    have h0 : rc r.relPath = 0 := hz r (List.mem_cons_self r rest)
    rw [dedupNew, if_pos h0]
    rw [List.map_cons, List.nodup_cons] at hnd
    refine congrArg (r :: ·) (ih (rc.incr r.relPath) hnd.2 ?_)
    intro r' hr'
    have hne : r'.relPath ≠ r.relPath := by
      intro he
      exact hnd.1 (he ▸ List.mem_map_of_mem (fun s => s.relPath) hr')
    rw [CountMap.incr]
    simp only [if_neg hne]
    exact hz r' (List.mem_cons_of_mem r hr')

theorem printLoop_no_skip (sc rc : CountMap) (primaryRoot : String) :
    ∀ l : List LocalRepository, (∀ r ∈ l, ¬ rc r.relPath > 1) →
    printUniqueLoop sc rc primaryRoot l
      = l.filterMap fun r => r.subpaths.find? fun p => sc p == 1 := by
  intro l
  induction l with
  | nil => intro _; rfl
  | cons r rest ih =>
    intro h
    have hc : ¬ (rc r.relPath > 1 ∧ r.isUnderPrimaryRoot primaryRoot = false) :=
      fun hc => h r (List.mem_cons_self r rest) hc.1
    rw [printUniqueLoop, if_neg hc]
    have hrest := ih fun r' hr' => h r' (List.mem_cons_of_mem r hr')
    cases hf : r.subpaths.find? fun p => sc p == 1 with
    | none => simp [List.filterMap_cons, hf, hrest]
    | some p => simp [List.filterMap_cons, hf, hrest]

theorem count_le_subpathsAll (p : String) :
    ∀ (l : List LocalRepository) (r : LocalRepository), r ∈ l →
    r.subpaths.count p ≤ (subpathsAll l).count p := by
  intro l
  induction l with
  | nil => intro r hr; cases hr
  | cons a rest ih =>
    intro r hr
    rw [subpathsAll, List.count_append]
    rcases List.mem_cons.mp hr with he | hm
    · subst he; omega
    · have := ih r hm; omega

theorem nodup_filterMap_find (sc : CountMap) :
    ∀ l : List LocalRepository, (∀ p, (subpathsAll l).count p ≤ sc p) →
    (l.filterMap fun r => r.subpaths.find? fun p => sc p == 1).Nodup := by
  intro l
  induction l with
  | nil => intro _; simp
  | cons r rest ih =>
    intro h
    have hrest : ∀ p, (subpathsAll rest).count p ≤ sc p := by
      intro p
      have := h p
      rw [subpathsAll, List.count_append] at this
      omega
    cases hf : r.subpaths.find? fun p => sc p == 1 with
    | none => simpa [List.filterMap_cons, hf] using ih hrest
    | some p =>
      rw [List.filterMap_cons, hf]
      rw [List.nodup_cons]
      refine ⟨?_, ih hrest⟩
      intro hmem
      obtain ⟨r', hr', hfr'⟩ := List.mem_filterMap.mp hmem
      have hp1 : sc p = 1 := by
        have := List.find?_some hf
        simpa using this
      have h1 : 0 < r.subpaths.count p :=
        List.count_pos_iff.mpr (List.mem_of_find?_eq_some hf)
      have h2 : 0 < (subpathsAll rest).count p :=
        lt_of_lt_of_le (List.count_pos_iff.mpr (List.mem_of_find?_eq_some hfr'))
          (count_le_subpathsAll p rest r' hr')
      have := h p
      rw [subpathsAll, List.count_append] at this
      omega

/-- C1 counterexample: two repositories with distinct `relPath` values
where one repository's every subpath collides (its path-part list is a
suffix of the other's), so unique-listing prints only one line for the
two repositories — the second is assigned no Subpath. -/
theorem unique_listing_drops_repo_cex :
    ((([⟨"/r1", ["github.com", "alice", "foo"]⟩, ⟨"/r1", ["alice", "foo"]⟩] :
        List LocalRepository).map fun r => r.relPath).Nodup)
    ∧ uniqueListing "/r1"
        [⟨"/r1", ["github.com", "alice", "foo"]⟩, ⟨"/r1", ["alice", "foo"]⟩]
      = ["github.com/alice/foo"] := by
  constructor
  · decide
  · rfl

/-- C1 (amended): for repositories with pairwise-distinct `relPath`
values, unique-listing assigns each repository at most one printed
Subpath — the first, scanning its subpaths shortest-first, whose global
frequency count equals 1, a repository with no globally-unique subpath
being omitted — and no two assigned Subpaths are equal. -/
theorem unique_listing_assignment (primaryRoot : String) (repos : List LocalRepository)
    (h : (repos.map fun r => r.relPath).Nodup) :
    uniqueListing primaryRoot repos
      = (repos.filterMap fun r =>
          r.subpaths.find? fun p => (subpathsAll repos).count p == 1)
    ∧ (uniqueListing primaryRoot repos).Nodup := by
  have hsc : (subpathCountLoop repos (zeroCount, zeroCount)).1
      = fun p => (subpathsAll repos).count p := by
    funext p
    rw [loop_fst, dedupNew_of_nodup repos zeroCount h fun r _ => rfl]
    simp [zeroCount]
  have hb : ∀ r ∈ repos, ¬ (subpathCountLoop repos (zeroCount, zeroCount)).2 r.relPath > 1 := by
    intro r hr
    rw [loop_snd]
    have hle : (repos.map fun r => r.relPath).count r.relPath ≤ 1 :=
      List.nodup_iff_count_le_one.mp h _
    simp [zeroCount]
    omega
  have key : uniqueListing primaryRoot repos
      = repos.filterMap fun r =>
          r.subpaths.find? fun p => (subpathsAll repos).count p == 1 := by
    rw [uniqueListing, printLoop_no_skip _ _ _ repos hb, hsc]
  refine ⟨key, ?_⟩
  rw [key]
  exact nodup_filterMap_find (fun p => (subpathsAll repos).count p) repos fun p => le_refl _

/-- Witness for the amended C1: the Scenario-A repository set has
pairwise-distinct relPaths, and the theorem instantiates to its concrete
assignment and its distinctness. -/
theorem unique_listing_assignment_witness :
    ((([⟨"/r1", ["github.com", "alice", "foo"]⟩, ⟨"/r2", ["github.com", "bob", "foo"]⟩] :
        List LocalRepository).map fun r => r.relPath).Nodup)
    ∧ (uniqueListing "/r1"
        [⟨"/r1", ["github.com", "alice", "foo"]⟩, ⟨"/r2", ["github.com", "bob", "foo"]⟩]
      = ([⟨"/r1", ["github.com", "alice", "foo"]⟩, ⟨"/r2", ["github.com", "bob", "foo"]⟩] :
          List LocalRepository).filterMap fun r =>
            r.subpaths.find? fun p =>
              (subpathsAll [⟨"/r1", ["github.com", "alice", "foo"]⟩,
                ⟨"/r2", ["github.com", "bob", "foo"]⟩]).count p == 1)
    ∧ (uniqueListing "/r1"
        [⟨"/r1", ["github.com", "alice", "foo"]⟩, ⟨"/r2", ["github.com", "bob", "foo"]⟩]).Nodup :=
  ⟨by decide,
   unique_listing_assignment "/r1"
     [⟨"/r1", ["github.com", "alice", "foo"]⟩, ⟨"/r2", ["github.com", "bob", "foo"]⟩]
     (by decide)⟩

/-- Following the spec's words, for comparison with the code: the
repositories eligible in unique mode — a `relPath` duplicated across
roots contributes only its copy under the primary root, or, absent a
primary-root copy, no copy at all. -/
def specEligible (primaryRoot : String) (repos : List LocalRepository) :
    List LocalRepository :=
  repos.filter fun r =>
    if (repos.map fun s => s.relPath).count r.relPath ≤ 1 then true
    else r.isUnderPrimaryRoot primaryRoot

/-- Following the spec's words, for comparison with the code: the
Subpath frequency count built across the full subpath lists of exactly
the eligible repositories. -/
def specSubpathCount (primaryRoot : String) (repos : List LocalRepository)
    (p : String) : Nat :=
  (subpathsAll (specEligible primaryRoot repos)).count p

/-- The Subpath frequency count the code builds: the first map produced
by the counting loop of `doList`'s unique mode. -/
def codeSubpathCount (repos : List LocalRepository) (p : String) : Nat :=
  (subpathCountLoop repos (zeroCount, zeroCount)).1 p

/-- C5 counterexample: a `relPath` duplicated across two non-primary
roots has no eligible copy, so per the claim its subpaths are counted
zero times — but the code counts the first copy's subpaths once. -/
theorem subpath_count_not_spec_eligible_cex :
    specSubpathCount "/r1"
      [⟨"/r2", ["github.com", "x", "a"]⟩, ⟨"/r3", ["github.com", "x", "a"]⟩] "a" = 0
    ∧ codeSubpathCount
      [⟨"/r2", ["github.com", "x", "a"]⟩, ⟨"/r3", ["github.com", "x", "a"]⟩] "a" = 1 := by
  constructor
  · rfl
  · rfl

/-- C5 (amended): in unique-listing mode the Subpath frequency count is
built across the full subpath lists of the first copy, in discovery
order, of each distinct `relPath` — the primary-root copy whenever one
exists, since discovery walks the primary root first — and subpaths of
the later duplicate copies are never counted. -/
theorem subpath_count_counts_first_copies (repos : List LocalRepository) (p : String) :
    codeSubpathCount repos p = (subpathsAll (firstCopies repos)).count p := by
  rw [codeSubpathCount, loop_fst, firstCopies]
  simp [zeroCount]

/-- C6 counterexample: substring-mode matching runs on the non-host
path, not `relPath`: the query `github.com` is a contiguous substring of
the repository's `relPath` yet the repository is not matched, and the
listing drops it. -/
theorem substring_match_not_relPath_cex :
    strContains
      (LocalRepository.relPath ⟨"/r1", ["github.com", "alice", "foo"]⟩) "github.com" = true
    ∧ doListFilter "github.com" false ⟨"/r1", ["github.com", "alice", "foo"]⟩ = false
    ∧ doList "/r1" "github.com" false false false
        [⟨"/r1", ["github.com", "alice", "foo"]⟩] = [] := by
  refine ⟨rfl, rfl, rfl⟩

theorem containsSub_nil (l : List Char) : containsSub [] l = true := by
  cases l <;> simp [containsSub, prefixAt]

theorem doListFilter_substring (query : String) (r : LocalRepository) :
    doListFilter query false r = strContains r.nonHostPath query := by
  by_cases hq : query = ""
  · subst hq
    have hd : ("" : String).data = ([] : List Char) := rfl
    rw [doListFilter, if_pos rfl, strContains, hd, containsSub_nil]
  · simp [doListFilter, hq]

/-- C6 (amended): substring-mode (non-exact) matching holds exactly when
the repository's non-host path — `relPath` with the leading host segment
removed — contains the query as a contiguous substring; the plain
listing in this mode prints exactly those repositories. -/
theorem substring_mode_matches_nonHostPath (primaryRoot query : String)
    (repos : List LocalRepository) :
    (∀ r : LocalRepository, doListFilter query false r = strContains r.nonHostPath query)
    ∧ doList primaryRoot query false false false repos
      = ((repos.filter fun r => strContains r.nonHostPath query).map fun r => r.relPath) := by
  refine ⟨doListFilter_substring query, ?_⟩
  have hcong : repos.filter (doListFilter query false)
      = repos.filter fun r => strContains r.nonHostPath query :=
    List.filter_congr fun r _ => doListFilter_substring query r
  simp [doList, hcong]

theorem printLoop_mem_subpaths (sc rc : CountMap) (primaryRoot : String) :
    ∀ (l : List LocalRepository) (line : String),
    line ∈ printUniqueLoop sc rc primaryRoot l → ∃ r ∈ l, line ∈ r.subpaths := by
  intro l
  induction l with
  | nil => intro line hline; cases hline
  | cons r rest ih =>
    intro line hline
    rw [printUniqueLoop] at hline
    by_cases hc : rc r.relPath > 1 ∧ r.isUnderPrimaryRoot primaryRoot = false
    · rw [if_pos hc] at hline
      obtain ⟨r', hr', hs⟩ := ih line hline
      exact ⟨r', List.mem_cons_of_mem r hr', hs⟩
    · rw [if_neg hc] at hline
      cases hf : r.subpaths.find? fun p => sc p == 1 with
      | none =>
        rw [hf] at hline
        obtain ⟨r', hr', hs⟩ := ih line hline
        exact ⟨r', List.mem_cons_of_mem r hr', hs⟩
      | some p =>
        rw [hf] at hline
        rcases List.mem_cons.mp hline with he | hm
        · subst he
          exact ⟨r, List.mem_cons_self r rest, List.mem_of_find?_eq_some hf⟩
        · obtain ⟨r', hr', hs⟩ := ih line hm
          exact ⟨r', List.mem_cons_of_mem r hr', hs⟩

/-- C10: in unique-listing mode the full-path flag has no effect — the
output is the same for both flag values — and every printed identifier
is one of some repository's relative subpaths, never a full path. -/
theorem unique_mode_ignores_full_path_flag (primaryRoot query : String)
    (exact fp fp' : Bool) (repos : List LocalRepository) :
    doList primaryRoot query exact fp true repos = doList primaryRoot query exact fp' true repos
    ∧ ∀ line ∈ doList primaryRoot query exact fp true repos,
        ∃ r ∈ repos, line ∈ r.subpaths := by
  constructor
  · rfl
  · intro line hline
    have hmem : line ∈ printUniqueLoop
        (subpathCountLoop (repos.filter (doListFilter query exact)) (zeroCount, zeroCount)).1
        (subpathCountLoop (repos.filter (doListFilter query exact)) (zeroCount, zeroCount)).2
        primaryRoot (repos.filter (doListFilter query exact)) := hline
    obtain ⟨r, hr, hs⟩ := printLoop_mem_subpaths _ _ _ _ line hmem
    exact ⟨r, List.mem_of_mem_filter hr, hs⟩

/-- Witness for C10: with one clone of `github.com/alice/foo`, both flag
values print the bare `foo`, a relative subpath. -/
theorem unique_mode_ignores_full_path_flag_witness :
    doList "/r1" "" false true true [⟨"/r1", ["github.com", "alice", "foo"]⟩]
      = doList "/r1" "" false false true [⟨"/r1", ["github.com", "alice", "foo"]⟩]
    ∧ ∃ r ∈ ([⟨"/r1", ["github.com", "alice", "foo"]⟩] : List LocalRepository),
        "foo" ∈ r.subpaths :=
  ⟨(unique_mode_ignores_full_path_flag "/r1" "" false true false
      [⟨"/r1", ["github.com", "alice", "foo"]⟩]).1,
   (unique_mode_ignores_full_path_flag "/r1" "" false true false
      [⟨"/r1", ["github.com", "alice", "foo"]⟩]).2 "foo" (by decide)⟩

/-- One target of a page of `doImportStarred`.  The fallible
collaborator calls of the loop body are explicit fields: `parsedURL` is
the `url.Parse` result, `sshURL` the SSH-conversion result (consulted
only with `-p`), `remote` the `NewRemoteRepository` result, and the last
three fields the per-target filesystem state consumed by
`getRemoteRepository`. -/
structure StarredItem where
  htmlURL : String
  parsedURL : Option String
  sshURL : Option String
  remote : Option RemoteRepository
  localFullPath : String
  localVcs : Option VcsKind
  pathExists : Bool
deriving DecidableEq

/-- One target of `doImportPocket`: as `StarredItem`, without the SSH
conversion step. -/
structure PocketItem where
  resolvedURL : String
  parsedURL : Option String
  remote : Option RemoteRepository
  localFullPath : String
  localVcs : Option VcsKind
  pathExists : Bool
deriving DecidableEq

/-- What one iteration of an import loop does with its target: log one
of the recoverable errors and move on, skip an invalid repository, or
sync it. -/
inductive ImportStep where
  | parseError
  | convertError
  | remoteError
  | skippedInvalid
  | synced (outcome : SyncOutcome)
deriving DecidableEq

/-- A step that did not reach the sync: one of the logged/skipped
recoverable conditions. -/
def ImportStep.isFailure : ImportStep → Bool
  | ImportStep.synced _ => false
  | _ => true

/-- The loop body of `doImportStarred` from the remote-resolution step
on, shared with `starredStep` after the URL steps succeed. -/
def importRemoteStep (doUpdate isShallow : Bool) (remote : Option RemoteRepository)
    (localFullPath : String) (localVcs : Option VcsKind) (pathExists : Bool) : ImportStep :=
  match remote with
  | none => ImportStep.remoteError
  | some remote =>
    if remote.isValid = false then ImportStep.skippedInvalid
    else ImportStep.synced
      (getRemoteRepository remote localFullPath localVcs pathExists doUpdate isShallow)

/-- The loop body of `doImportStarred`: parse the starred repository's
URL, convert it to SSH when requested, resolve the remote, skip it when
invalid, and otherwise sync it; each failure logs and continues. -/
def starredStep (doUpdate isSSH isShallow : Bool) (item : StarredItem) : ImportStep :=
  match item.parsedURL with
  | none => ImportStep.parseError
  | some _ =>
    if isSSH then
      match item.sshURL with
      | none => ImportStep.convertError
      | some _ =>
        importRemoteStep doUpdate isShallow item.remote item.localFullPath item.localVcs
          item.pathExists
    else
      importRemoteStep doUpdate isShallow item.remote item.localFullPath item.localVcs
        item.pathExists

/-- The loop body of `doImportPocket`: parse the entry's resolved URL,
resolve the remote, skip it when invalid, and otherwise sync it. -/
def pocketStep (doUpdate isShallow : Bool) (item : PocketItem) : ImportStep :=
  match item.parsedURL with
  | none => ImportStep.parseError
  | some _ =>
    importRemoteStep doUpdate isShallow item.remote item.localFullPath item.localVcs
      item.pathExists

/-- The `for _, repo := range repositories` loop of one page of
`doImportStarred`: every target is processed in turn. -/
def doImportStarredBatch (doUpdate isSSH isShallow : Bool) :
    List StarredItem → List ImportStep
  | [] => []
  | item :: rest =>
    starredStep doUpdate isSSH isShallow item :: doImportStarredBatch doUpdate isSSH isShallow rest

/-- The `for _, item := range res.List` loop of `doImportPocket`. -/
def doImportPocketBatch (doUpdate isShallow : Bool) : List PocketItem → List ImportStep
  | [] => []
  | item :: rest =>
    pocketStep doUpdate isShallow item :: doImportPocketBatch doUpdate isShallow rest

/-- A recoverable per-target failure of the starred import: unparsable
URL, failed SSH conversion, unresolvable remote, or invalid
repository. -/
def StarredItem.recoverableFailure (isSSH : Bool) (item : StarredItem) : Prop :=
  item.parsedURL = none ∨ (isSSH = true ∧ item.sshURL = none)
  ∨ item.remote = none ∨ ∃ r, item.remote = some r ∧ r.isValid = false

/-- A recoverable per-target failure of the Pocket import. -/
def PocketItem.recoverableFailure (item : PocketItem) : Prop :=
  item.parsedURL = none ∨ item.remote = none
  ∨ ∃ r, item.remote = some r ∧ r.isValid = false

theorem importRemoteStep_failure (doUpdate isShallow : Bool)
    (remote : Option RemoteRepository) (lp : String) (lv : Option VcsKind) (pe : Bool)
    (h : remote = none ∨ ∃ r, remote = some r ∧ r.isValid = false) :
    (importRemoteStep doUpdate isShallow remote lp lv pe).isFailure = true := by
  rcases h with h | ⟨r, hr, hv⟩
  · subst h; rfl
  · subst hr
    simp [importRemoteStep, hv, ImportStep.isFailure]

theorem starredStep_failure (doUpdate isSSH isShallow : Bool) (item : StarredItem)
    (h : item.recoverableFailure isSSH) :
    (starredStep doUpdate isSSH isShallow item).isFailure = true := by
  cases hp : item.parsedURL with
  | none => simp [starredStep, hp, ImportStep.isFailure]
  | some u =>
    cases hs : isSSH with
    | false =>
      have hrest : item.remote = none ∨ ∃ r, item.remote = some r ∧ r.isValid = false := by
        rw [hs] at h
        rcases h with h | ⟨hssh, _⟩ | h | hex
        · rw [hp] at h; cases h
        · cases hssh
        · exact Or.inl h
        · exact Or.inr hex
      simp [starredStep, hp, importRemoteStep_failure doUpdate isShallow _ _ _ _ hrest]
    | true =>
      cases hc : item.sshURL with
      | none => simp [starredStep, hp, hc, ImportStep.isFailure]
      | some v =>
        have hrest : item.remote = none ∨ ∃ r, item.remote = some r ∧ r.isValid = false := by
          rcases h with h | ⟨_, hconv⟩ | h | hex
          · rw [hp] at h; cases h
          · rw [hc] at hconv; cases hconv
          · exact Or.inl h
          · exact Or.inr hex
        simp [starredStep, hp, hc, importRemoteStep_failure doUpdate isShallow _ _ _ _ hrest]

theorem pocketStep_failure (doUpdate isShallow : Bool) (item : PocketItem)
    (h : item.recoverableFailure) :
    (pocketStep doUpdate isShallow item).isFailure = true := by
  cases hp : item.parsedURL with
  | none => simp [pocketStep, hp, ImportStep.isFailure]
  | some u =>
    have hrest : item.remote = none ∨ ∃ r, item.remote = some r ∧ r.isValid = false := by
      rcases h with h | h | hex
      · rw [hp] at h; cases h
      · exact Or.inl h
      · exact Or.inr hex
    simp [pocketStep, hp, importRemoteStep_failure doUpdate isShallow _ _ _ _ hrest]

theorem starredBatch_append (doUpdate isSSH isShallow : Bool) (l₁ l₂ : List StarredItem) :
    doImportStarredBatch doUpdate isSSH isShallow (l₁ ++ l₂)
      = doImportStarredBatch doUpdate isSSH isShallow l₁
        ++ doImportStarredBatch doUpdate isSSH isShallow l₂ := by
  induction l₁ with
  | nil => rfl
  | cons a l ih => rw [List.cons_append, doImportStarredBatch, doImportStarredBatch, ih]; rfl

theorem pocketBatch_append (doUpdate isShallow : Bool) (l₁ l₂ : List PocketItem) :
    doImportPocketBatch doUpdate isShallow (l₁ ++ l₂)
      = doImportPocketBatch doUpdate isShallow l₁ ++ doImportPocketBatch doUpdate isShallow l₂ := by
  induction l₁ with
  | nil => rfl
  | cons a l ih => rw [List.cons_append, doImportPocketBatch, doImportPocketBatch, ih]; rfl

/-- C8: a recoverable per-target failure never aborts a batch import —
the failing target contributes one logged/skipped step, and every target
before and after it is processed exactly as it would be alone, in both
the starred and the Pocket import loops. -/
theorem import_batch_continues_on_failure (doUpdate isSSH isShallow : Bool)
    (pre post : List StarredItem) (item : StarredItem)
    (ppre ppost : List PocketItem) (pitem : PocketItem)
    (h : item.recoverableFailure isSSH) (hp : pitem.recoverableFailure) :
    (starredStep doUpdate isSSH isShallow item).isFailure = true
    ∧ doImportStarredBatch doUpdate isSSH isShallow (pre ++ item :: post)
      = doImportStarredBatch doUpdate isSSH isShallow pre
        ++ starredStep doUpdate isSSH isShallow item
          :: doImportStarredBatch doUpdate isSSH isShallow post
    ∧ (pocketStep doUpdate isShallow pitem).isFailure = true
    ∧ doImportPocketBatch doUpdate isShallow (ppre ++ pitem :: ppost)
      = doImportPocketBatch doUpdate isShallow ppre
        ++ pocketStep doUpdate isShallow pitem :: doImportPocketBatch doUpdate isShallow ppost := by
  refine ⟨starredStep_failure doUpdate isSSH isShallow item h, ?_,
    pocketStep_failure doUpdate isShallow pitem hp, ?_⟩
  · rw [starredBatch_append]; rfl
  · rw [pocketBatch_append]; rfl

/-- Witness for C8: an unparsable starred target and an unresolvable
Pocket target each log one failure while the surrounding targets are
still synced. -/
theorem import_batch_continues_on_failure_witness :
    StarredItem.recoverableFailure false ⟨"u", none, none, none, "p", none, false⟩
    ∧ PocketItem.recoverableFailure ⟨"v", some "v", none, "q", none, false⟩
    ∧ doImportStarredBatch true false false
        ([⟨"w", some "w", none, some ⟨"w", some VcsKind.git, true⟩, "pw", none, false⟩]
          ++ ⟨"u", none, none, none, "p", none, false⟩ ::
            [⟨"x", some "x", none, some ⟨"x", some VcsKind.git, true⟩, "px", none, false⟩])
      = doImportStarredBatch true false false
          [⟨"w", some "w", none, some ⟨"w", some VcsKind.git, true⟩, "pw", none, false⟩]
        ++ starredStep true false false ⟨"u", none, none, none, "p", none, false⟩ ::
          doImportStarredBatch true false false
            [⟨"x", some "x", none, some ⟨"x", some VcsKind.git, true⟩, "px", none, false⟩] :=
  ⟨Or.inl rfl, Or.inr (Or.inl rfl),
   (import_batch_continues_on_failure true false false
      [⟨"w", some "w", none, some ⟨"w", some VcsKind.git, true⟩, "pw", none, false⟩]
      [⟨"x", some "x", none, some ⟨"x", some VcsKind.git, true⟩, "px", none, false⟩]
      ⟨"u", none, none, none, "p", none, false⟩
      [] [] ⟨"v", some "v", none, "q", none, false⟩
      (Or.inl rfl) (Or.inr (Or.inl rfl))).2.1⟩

end Ghq
